import Mathlib

/-!
Verification development for the CV-RAG indexing and search pipeline
(`cv_indexer.py`, `cross_encoder_reranker.py`, `config.py`).

The Python sources are shallowly embedded as executable Lean definitions:
pure functions become Lean functions, the module-global reranker cell
becomes explicit state passing, the external collaborators (ChromaDB
collection, the cross-encoder model, `json.loads`) are passed in as
function arguments or as their observed outcome for the call under
study.  Floats (distances, rerank scores) are modelled as `Int`: the
claims only concern ordering and array shapes, for which integer order
is a faithful abstraction (NaN behaviour is out of scope).
-/

/-! ## Word tokenization (Python `str.split()`)

`text.split()` splits on runs of whitespace and drops empty pieces.
We model strings at the `List Char` level so that the round-trip
`split (" ".join ws)) = ws` is provable by list induction.
`tokenizeChars` returns the maximal whitespace-free runs of the input,
in order, which is exactly Python's `str.split()`. -/

def tokenizeChars : List Char → List (List Char)
  | [] => []
  | c :: rest =>
    let ts := tokenizeChars rest
    if c.isWhitespace then ts
    else
      match rest with
      | [] => [[c]]
      | d :: _ =>
        if d.isWhitespace then [c] :: ts
        else
          match ts with
          | [] => [[c]]
          | w :: ws => (c :: w) :: ws

def tokenize (s : String) : List String :=
  (tokenizeChars s.data).map (fun l => ⟨l⟩)

/-- Python `" ".join(ws)` at the character level. -/
def joinChars : List (List Char) → List Char
  | [] => []
  | [w] => w
  | w :: v :: ws => w ++ ' ' :: joinChars (v :: ws)

/-- Python `" ".join(chunk_words)` (source line 120). -/
def joinWords (ws : List String) : String :=
  ⟨joinChars (ws.map String.data)⟩

/-! ## Chunker (`CVIndexer._split_into_chunks`, cv_indexer.py lines 90-130)

The `while start < len(words)` loop is embedded with explicit fuel: the
source advances `start` by `chunk_size - overlap` each iteration, so
with `overlap < chunk_size` the loop runs at most `len(words)` times
and the fuel `words.length` is exact (proved in
`chunkLoop_fuel_stable`).  With `overlap >= chunk_size` the Python loop
never terminates; the fuel model then merely truncates, and the
divergence is made explicit by proving the loop's output grows with the
fuel, with no fixed point.

The `chunk_size`/`overlap`/`min_size` parameters model the effective
configuration values (`config.CHUNK_SIZE`, `config.CHUNK_OVERLAP`,
`config.MIN_CHUNK_SIZE`): the production call site
`self._split_into_chunks(content)` leaves the optional arguments at
`None`, so the `chunk_size or config.CHUNK_SIZE` defaulting always
selects the config values. -/

def chunkLoop (words : List String) (chunkSize overlap minSize : Nat) :
    Nat → Nat → List String
  | _start, 0 => []
  | start, fuel + 1 =>
    if start < words.length then
      let chunkWords := (words.drop start).take chunkSize
      let rest := chunkLoop words chunkSize overlap minSize
        (start + (chunkSize - overlap)) fuel
      if minSize ≤ chunkWords.length then joinWords chunkWords :: rest else rest
    else []

def splitIntoChunks (text : String) (chunkSize overlap minSize : Nat) :
    List String :=
  let words := tokenize text
  if words.length ≤ chunkSize then [text]
  else chunkLoop words chunkSize overlap minSize 0 words.length

/-- Modelled from the spec's words (refinement target for the chunker):
"slide a window of `size` tokens starting at 0, advancing by
`size − overlap` each step; emit the joined window as a chunk only if
its token count ≥ `min_size`; stop once the window start reaches or
passes the token count."  The window starts are the ascending multiples
of the stride below the token count. -/
def chunkSpecFrom (words : List String) (chunkSize overlap minSize start : Nat) :
    List String :=
  let stride := chunkSize - overlap
  let starts := (List.range ((words.length - start + stride - 1) / stride)).map
    (fun i => start + i * stride)
  starts.filterMap (fun s =>
    let w := (words.drop s).take chunkSize
    if minSize ≤ w.length then some (joinWords w) else none)

def chunkSpec (words : List String) (chunkSize overlap minSize : Nat) :
    List String :=
  chunkSpecFrom words chunkSize overlap minSize 0

/-! ## Configuration defaults (config.py)

The values are the `os.getenv` fall-backs, i.e. the configuration the
spec's scenarios assume. -/

def CHUNK_SIZE : Nat := 500
def CHUNK_OVERLAP : Nat := 100
def MIN_CHUNK_SIZE : Nat := 50
def DEFAULT_SEARCH_RESULTS : Nat := 12
def MAX_SEARCH_RESULTS : Nat := 20
def RERANK_TOP_K : Nat := 50
def ENABLE_RERANKING : Bool := true

/-! ## JSON values and Python-dict access

A minimal JSON value type for the structured CV records.  Numbers are
modelled as `Int` (no claim inspects numeric values; they are only
copied around).  Objects are ordered association lists, matching
insertion-ordered Python dicts with unique keys. -/

inductive Json where
  | null
  | bool (b : Bool)
  | num (n : Int)
  | str (s : String)
  | arr (xs : List Json)
  | obj (fields : List (String × Json))

/-- Python `d.get(k)` / `d[k]` on a JSON object.  On a non-object the
Python attribute access would raise `AttributeError` (a path no claim
exercises); the model returns `none` there. -/
def Json.getObj : Json → String → Option Json
  | .obj fs, k => fs.lookup k
  | _, _ => none

/-- Python truthiness of a JSON value. -/
def Json.truthy : Json → Bool
  | .null => false
  | .bool b => b
  | .num n => n != 0
  | .str s => s != ""
  | .arr xs => !xs.isEmpty
  | .obj fs => !fs.isEmpty

/-- Python `str(v)`.  The `repr` of containers is not reproduced
character-for-character (no claim depends on it); scalars are faithful. -/
def pyStr : Json → String
  | .str s => s
  | .num n => toString n
  | .bool true => "True"
  | .bool false => "False"
  | .null => "None"
  | .arr _ => "[list]"
  | .obj _ => "[dict]"

/-- Python `s.strip()` used as a boolean: true iff `s` contains a
non-whitespace character. -/
def stripTruthy (s : String) : Bool :=
  !s.data.all Char.isWhitespace

/-- The multilingual-field resolution expression that the source
repeats verbatim at cv_indexer.py lines 208, 227, 238, 252, 257, 262,
278, 283, 303, 309, 317, 343, 349, 355, 362:
`value.get('no', value.get('en', value.get('int', '')))`.
Note `dict.get` keys on *presence*, not on non-emptiness. -/
def resolveLocalized (fs : List (String × Json)) : Json :=
  (fs.lookup "no").getD ((fs.lookup "en").getD ((fs.lookup "int").getD (Json.str "")))

/-- Modelled from the spec's words (refinement target for localized
resolution): "given \x7bpreferred, secondary, tertiary\x7d locale keys,
return the first non-empty string found, else empty string." -/
def resolveFirstNonEmptySpec (fs : List (String × Json)) : Json :=
  Json.str ((([fs.lookup "no", fs.lookup "en", fs.lookup "int"].filterMap id).filterMap
    (fun v => match v with | Json.str s => if s ≠ "" then some s else none | _ => none)).headD "")

/-- Python `e.get(k1, e.get(k2, ''))`. -/
def getChain2 (e : Json) (k1 k2 : String) : Json :=
  (e.getObj k1).getD ((e.getObj k2).getD (Json.str ""))

/-- The pattern `x = <raw>; if isinstance(x, dict): x = <resolve>;
x = str(x) if x else ''` (e.g. cv_indexer.py lines 250-258). -/
def fieldStr (v : Json) : String :=
  let v' := match v with | Json.obj fs => resolveLocalized fs | _ => v
  if v'.truthy then pyStr v' else ""

/-- The pattern `x = <raw>; if isinstance(x, dict): x = <resolve>;
if not isinstance(x, str): x = ''` (e.g. cv_indexer.py lines 260-264). -/
def fieldStrOnly (v : Json) : String :=
  let v' := match v with | Json.obj fs => resolveLocalized fs | _ => v
  match v' with | Json.str s => s | _ => ""

/-! ## Text extraction (`CVIndexer._extract_text_from_json`, lines 180-388) -/

/-- Summary/profile/description section body (lines 203-210). -/
def sectionField (cv : Json) (field : String) : List String :=
  match cv.getObj field with
  | none => []
  | some v =>
    if v.truthy then
      match v with
      | Json.str s => if stripTruthy s then ["\n" ++ s] else []
      | Json.obj fs =>
        match resolveLocalized fs with
        | Json.str s => if stripTruthy s then ["\n" ++ s] else []
        | _ => []
      | _ => []
    else []

/-- Category fallback inside the technologies loop (lines 236-240). -/
def techCategoryFallback (t : Json) : List String :=
  match t.getObj "category" with
  | some cat =>
    if cat.truthy then
      match cat with
      | Json.obj cfs =>
        match resolveLocalized cfs with
        | Json.str s => if s ≠ "" then [s] else []
        | _ => []
      | _ => []
    else []
  | none => []

/-- Skill names contributed by one technology entry (lines 215-240). -/
def techsOf (t : Json) : List String :=
  match t with
  | Json.obj _ =>
    if ((t.getObj "disabled").getD Json.null).truthy then []
    else
      let skillsV := (t.getObj "technology_skills").getD Json.null
      let fromSkills :=
        if skillsV.truthy then
          (match skillsV with | Json.arr xs => xs | _ => []).filterMap (fun skill =>
            match skill with
            | Json.obj _ =>
              match (skill.getObj "tags").getD (Json.obj []) with
              | Json.obj tfs =>
                match resolveLocalized tfs with
                | Json.str s => if s ≠ "" then some s else none
                | _ => none
              | _ => none
            | _ => none)
        else []
      let fallback :=
        if !skillsV.truthy then
          match (t.getObj "name").getD (Json.str "") with
          | Json.str s => if s ≠ "" then [s] else techCategoryFallback t
          | _ => techCategoryFallback t
        else []
      fromSkills ++ fallback
  | _ => []

/-- Lines contributed by one work experience (lines 247-269). -/
def workExpLines (exp : Json) : List String :=
  match exp with
  | Json.obj _ =>
    let employer := fieldStr ((exp.getObj "employer").getD (Json.str ""))
    let role := fieldStr (getChain2 exp "role" "title")
    let desc := fieldStrOnly (getChain2 exp "description" "long_description")
    (if employer ≠ "" ∨ role ≠ "" then ["\n### " ++ role ++ " at " ++ employer] else []) ++
    (if desc ≠ "" ∧ stripTruthy desc then [desc] else [])
  | _ => []

/-- Lines contributed by one education entry (lines 274-287). -/
def educationLines (edu : Json) : List String :=
  match edu with
  | Json.obj _ =>
    let school := fieldStr ((edu.getObj "school").getD (Json.str ""))
    let degree := fieldStr (getChain2 edu "degree" "title")
    if school ≠ "" ∨ degree ≠ "" then ["\n" ++ degree ++ " - " ++ school] else []
  | _ => []

/-- Lines contributed by one key qualification (lines 294-327). -/
def qualificationLines (qual : Json) : List String :=
  match qual with
  | Json.obj _ =>
    if ((qual.getObj "disabled").getD Json.null).truthy then []
    else
      let label := fieldStr ((qual.getObj "label").getD (Json.str ""))
      let desc0 := fieldStrOnly (getChain2 qual "long_description" "description")
      let desc :=
        if desc0 = "" then fieldStr ((qual.getObj "text").getD (Json.str ""))
        else desc0
      if label ≠ "" ∧ stripTruthy desc then ["\n### " ++ label, desc]
      else if stripTruthy desc then ["\n" ++ desc]
      else []
  | Json.str s => ["- " ++ s]
  | _ => []

/-- Lines contributed by one project experience (lines 334-386).
The local variable `desc` computed at source line 367 is dead code
(never read afterwards) and is omitted. -/
def projectLines (proj : Json) : List String :=
  match proj with
  | Json.obj _ =>
    if ((proj.getObj "disabled").getD Json.null).truthy then []
    else
      let customer := fieldStr ((proj.getObj "customer").getD (Json.str ""))
      let role := fieldStr ((proj.getObj "role").getD (Json.str ""))
      let longDesc := fieldStrOnly ((proj.getObj "long_description").getD (Json.str ""))
      let shortDesc := fieldStrOnly ((proj.getObj "description").getD (Json.str ""))
      let headerParts :=
        (if shortDesc ≠ "" then [shortDesc] else if role ≠ "" then [role] else []) ++
        (if customer ≠ "" then ["@ " ++ customer] else [])
      (if headerParts ≠ [] then ["\n### " ++ String.intercalate " " headerParts] else []) ++
      (if stripTruthy longDesc then [longDesc] else [])
  | _ => []

/-- `CVIndexer._extract_text_from_json` (cv_indexer.py lines 180-388). -/
def extractTextFromJson (cv : Json) : String :=
  let nameLines :=
    match cv.getObj "name" with
    | some v => if v.truthy then ["# " ++ pyStr v] else []
    | none => []
  let userMeta := (cv.getObj "_user_metadata").getD (Json.obj [])
  let office := (userMeta.getObj "office_name").getD (Json.str "")
  let officeLines := if office.truthy then ["**Avdeling:** " ++ pyStr office] else []
  let profileLines :=
    sectionField cv "summary" ++ sectionField cv "profile" ++ sectionField cv "description"
  let techEntries :=
    if ((cv.getObj "technologies").getD Json.null).truthy then
      (match (cv.getObj "technologies").getD Json.null with
       | Json.arr xs => xs | _ => []).flatMap techsOf
    else []
  let techLines :=
    if ((cv.getObj "technologies").getD Json.null).truthy ∧ techEntries ≠ [] then
      ["\n## Technologies\n" ++ String.intercalate ", " techEntries]
    else []
  let workLines :=
    if ((cv.getObj "work_experiences").getD Json.null).truthy then
      "\n## Work Experience" ::
        (match (cv.getObj "work_experiences").getD Json.null with
         | Json.arr xs => xs | _ => []).flatMap workExpLines
    else []
  let eduLines :=
    if ((cv.getObj "educations").getD Json.null).truthy then
      "\n## Education" ::
        (match (cv.getObj "educations").getD Json.null with
         | Json.arr xs => xs | _ => []).flatMap educationLines
    else []
  let qualLines :=
    if ((cv.getObj "key_qualifications").getD Json.null).truthy then
      match (cv.getObj "key_qualifications").getD Json.null with
      | Json.arr xs => "\n## Key Qualifications" :: xs.flatMap qualificationLines
      | _ => []
    else []
  let projLines :=
    if ((cv.getObj "project_experiences").getD Json.null).truthy then
      match (cv.getObj "project_experiences").getD Json.null with
      | Json.arr xs => "\n## Project Experiences" :: xs.flatMap projectLines
      | _ => []
    else []
  let lines := nameLines ++ officeLines ++ profileLines ++ techLines ++
    workLines ++ eduLines ++ qualLines ++ projLines
  String.intercalate "\n" (lines.filter (fun l => l ≠ ""))

/-! ## File parsing (`CVIndexer._parse_cv_file`, lines 132-178) -/

/-- The pieces of a `pathlib.Path` that `_parse_cv_file` reads. -/
structure CvPath where
  name : String
  stem : String
  suffix : String
  full : String

/-- Python `s.title()` (ASCII behaviour): uppercase a letter that does
not follow a letter, lowercase one that does. -/
def pyTitleChars : List Char → Bool → List Char
  | [], _ => []
  | c :: cs, prevAlpha =>
    (if c.isAlpha then (if prevAlpha then c.toLower else c.toUpper) else c) ::
      pyTitleChars cs c.isAlpha

def pyTitle (s : String) : String :=
  ⟨pyTitleChars s.data false⟩

/-- `file_path.stem.replace("-", " ").replace("_", " ").title()`. -/
def derivedName (stem : String) : String :=
  pyTitle ((stem.replace "-" " ").replace "_" " ")

/-- `CVIndexer._parse_cv_file` (cv_indexer.py lines 132-178), with the
file contents already read.  `decoded` is the outcome of the external
`json.loads(content)` call: `some cv` on success, `none` when it raises
`json.JSONDecodeError` (malformed JSON) — the `except` arm at lines
168-170 logs and returns `("", \x7b\x7d)`.  Metadata dicts are ordered
association lists. -/
def parseCvFile (p : CvPath) (content : String) (decoded : Option Json) :
    String × List (String × Json) :=
  if content.data.all Char.isWhitespace then ("", [])
  else if p.suffix = ".json" then
    match decoded with
    | some cv =>
      let text := extractTextFromJson cv
      let userMeta := (cv.getObj "_user_metadata").getD (Json.obj [])
      let baseMeta : List (String × Json) :=
        [("source", Json.str p.name),
         ("file_path", Json.str p.full),
         ("cv_name", (cv.getObj "name").getD (Json.str (derivedName p.stem))),
         ("office", (userMeta.getObj "office_name").getD (Json.str ""))]
      let meta := baseMeta ++
        (match cv.getObj "years_of_experience" with
         | some v => [("years_of_experience", v)]
         | none => [])
      (text, meta)
    | none => ("", [])
  else
    (content,
     [("source", Json.str p.name),
      ("file_path", Json.str p.full),
      ("cv_name", Json.str (derivedName p.stem))])

/-! ## Cross-encoder reranker (`cross_encoder_reranker.py`)

The loaded cross-encoder model is an external collaborator; only its
batched scoring function is visible to the code under verification. -/

structure Reranker where
  predict : List (String × String) → List Int

/-- Stable descending insertion: place `x` before the first element
whose score it reaches.  An earlier element is inserted before later
equal-scored ones, so `sortDesc` is extensionally Python's stable
`list.sort(key=lambda x: x[1], reverse=True)` at line 86 of
cross_encoder_reranker.py. -/
def insertDesc (x : Nat × Int) : List (Nat × Int) → List (Nat × Int)
  | [] => [x]
  | y :: ys => if y.2 ≤ x.2 then x :: y :: ys else y :: insertDesc x ys

def sortDesc : List (Nat × Int) → List (Nat × Int)
  | [] => []
  | x :: xs => insertDesc x (sortDesc xs)

/-- `CrossEncoderReranker.rerank` (cross_encoder_reranker.py lines
54-92).  Returns `(index, score)` pairs, highest score first.  `top_k`
is `Option Nat`; Python's `if top_k:` also treats an explicit `0` as
"return all". -/
def rerank (predict : List (String × String) → List Int) (query : String)
    (documents : List String) (top_k : Option Nat) : List (Nat × Int) :=
  if documents = [] then []
  else
    let pairs := documents.map (fun d => (query, d))
    let scores := predict pairs
    let scored := scores.enum
    let sorted := sortDesc scored
    match top_k with
    | some k => if k ≠ 0 then sorted.take k else sorted
    | none => sorted

/-- Search results as returned by `CVIndexer.search`: a Python dict of
parallel lists.  `rerank_scores = none` models the key being absent;
`some l` models the key being present with value `l`.  A distance entry
`none` models Python `None` (line 128-129 of cross_encoder_reranker.py
inserts `None` when the incoming dict has no truthy distances list). -/
structure SearchResult where
  ids : List String
  documents : List String
  metadatas : List Json
  distances : List (Option Int)
  rerank_scores : Option (List Int)

/-- `CrossEncoderReranker.rerank_search_results` (lines 94-133).
Out-of-range indexing (possible only if the model returned more scores
than documents, where Python would raise `IndexError`) is modelled with
default values; the theorems assume the collaborator contract of one
score per pair. -/
def rerank_search_results (predict : List (String × String) → List Int)
    (query : String) (sr : SearchResult) (top_k : Option Nat) : SearchResult :=
  if sr.documents = [] then sr
  else
    let reranked := rerank predict query sr.documents top_k
    { ids := reranked.map (fun p => (sr.ids[p.1]?).getD "")
      documents := reranked.map (fun p => (sr.documents[p.1]?).getD "")
      metadatas := reranked.map (fun p => (sr.metadatas[p.1]?).getD Json.null)
      distances := reranked.map (fun p =>
        if sr.distances ≠ [] then (sr.distances[p.1]?).getD none else none)
      rerank_scores := some (reranked.map (fun p => p.2)) }

/-! ## Reranker lifecycle (`_get_reranker`, cv_indexer.py lines 20-35)

The module global `_reranker` holds `None` (uninitialized), a reranker
object, or `False` (construction failed once; never retried). -/

inductive RerankerCell where
  | uninit
  | ready (r : Reranker)
  | failed

/-- `_get_reranker()`: `construct` is the outcome of the external
`CrossEncoderReranker()` constructor if it were attempted on this call
(`none` = the constructor raises).  Returns the new cell value, which
is also the function's return value (`_reranker` after the update). -/
def getReranker (enable : Bool) (construct : Option Reranker)
    (cell : RerankerCell) : RerankerCell :=
  if enable then
    match cell with
    | .uninit =>
      match construct with
      | some r => .ready r
      | none => .failed
    | c => c
  else cell

/-! ## Search (`CVIndexer.search`, cv_indexer.py lines 513-602) -/

/-- One raw ChromaDB answer: nested lists, one inner list per query
text (the code always sends exactly one query).  `distances = none`
models the `'distances'` key being absent. -/
structure QueryRaw where
  ids : List (List String)
  documents : List (List String)
  metadatas : List (List Json)
  distances : Option (List (List Int))

/-- `n_results = n_results or DEFAULT; n_results = min(n_results, MAX)`
(lines 537-538).  Python's `or` sends both `None` and `0` to the
default. -/
def effectiveN (defaultN maxN : Nat) (nOpt : Option Nat) : Nat :=
  min (match nOpt with
       | none => defaultN
       | some 0 => defaultN
       | some (m + 1) => m + 1) maxN

/-- `fetch_count = RERANK_TOP_K if use_reranking else n_results;
fetch_count = max(fetch_count, n_results)` (lines 546-547).  Note the
computation reads only the `use_reranking` flag, never the reranker
cell. -/
def fetchCount (poolK n : Nat) (useRR : Bool) : Nat :=
  max (if useRR then poolK else n) n

/-- Flattening of the raw answer for the single query (lines 559-565). -/
def baseOf (raw : QueryRaw) : SearchResult :=
  { ids := raw.ids.headD []
    documents := raw.documents.headD []
    metadatas := raw.metadatas.headD []
    distances := (match raw.distances with
                  | some ds => ds.headD []
                  | none => []).map some
    rerank_scores := none }

/-- Final truncation block (lines 589-596).  Note it always installs a
`rerank_scores` key, defaulting to the empty list. -/
def truncateResult (n : Nat) (sr : SearchResult) : SearchResult :=
  if n < sr.ids.length then
    { ids := sr.ids.take n
      documents := sr.documents.take n
      metadatas := sr.metadatas.take n
      distances := if sr.distances ≠ [] then sr.distances.take n else []
      rerank_scores := some ((sr.rerank_scores.getD []).take n) }
  else sr

inductive SearchErr where
  | searchError

/-- `CVIndexer.search` (lines 513-602).  `queryFn k` is the external
`collection.query(query_texts=[query], n_results=k, where=filter)`
call: `some raw` on success, `none` when it raises (the `except` arm at
lines 600-602 re-raises; modelled as `Except.error`).  The metadata
filter is folded into `queryFn`.  The returned pair is
(result-or-error, new value of the module global `_reranker`). -/
def search (queryFn : Nat → Option QueryRaw) (construct : Option Reranker)
    (enable : Bool) (defaultN maxN poolK : Nat) (cell : RerankerCell)
    (query : String) (nOpt : Option Nat) (useRROpt : Option Bool) :
    Except SearchErr SearchResult × RerankerCell :=
  let n := effectiveN defaultN maxN nOpt
  let useRR := useRROpt.getD enable
  let fetch := fetchCount poolK n useRR
  match queryFn fetch with
  | none => (.error .searchError, cell)
  | some raw =>
    if raw.ids = [] then
      (.ok { ids := [], documents := [], metadatas := [], distances := [],
             rerank_scores := none }, cell)
    else
      let base := baseOf raw
      let step :=
        if useRR ∧ 0 < base.documents.length then
          match getReranker enable construct cell with
          | .ready r =>
            (rerank_search_results r.predict query base (some n),
             RerankerCell.ready r)
          | c => (base, c)
        else (base, cell)
      (.ok (truncateResult n step.1), step.2)

/-! ## Tokenizer lemmas -/

theorem tokenizeChars_nil : tokenizeChars [] = [] := rfl

theorem tokenizeChars_ws (c : Char) (rest : List Char) (hc : c.isWhitespace = true) :
    tokenizeChars (c :: rest) = tokenizeChars rest := by
  simp [tokenizeChars, hc]

theorem tokenizeChars_one (c : Char) (hc : c.isWhitespace = false) :
    tokenizeChars [c] = [[c]] := by
  simp [tokenizeChars, hc]

theorem tokenizeChars_nonws_ws (c d : Char) (rest : List Char)
    (hc : c.isWhitespace = false) (hd : d.isWhitespace = true) :
    tokenizeChars (c :: d :: rest) = [c] :: tokenizeChars (d :: rest) := by
  simp [tokenizeChars, hc, hd]

theorem tokenizeChars_nonws_nonws (c d : Char) (rest : List Char)
    (w : List Char) (ws : List (List Char))
    (hc : c.isWhitespace = false) (hd : d.isWhitespace = false)
    (hts : tokenizeChars (d :: rest) = w :: ws) :
    tokenizeChars (c :: d :: rest) = (c :: w) :: ws := by
  conv_lhs => rw [tokenizeChars]
  simp [hc, hd, hts]

theorem tokenizeChars_wf :
    ∀ l : List Char, ∀ w ∈ tokenizeChars l, w ≠ [] ∧ ∀ c ∈ w, c.isWhitespace = false
  | [] => by simp [tokenizeChars]
  | c :: rest => by
    intro w hw
    have ih := tokenizeChars_wf rest
    rcases hc : c.isWhitespace with _ | _
    · match rest, hw with
      | [], hw =>
        rw [show tokenizeChars [c] = [[c]] from tokenizeChars_one c hc] at hw
        simp at hw
        subst hw
        simp [hc]
      | d :: rest', hw =>
        rcases hd : d.isWhitespace with _ | _
        · rcases hts : tokenizeChars (d :: rest') with _ | ⟨w', ws'⟩
          · rw [show tokenizeChars (c :: d :: rest') = [[c]] by
                conv_lhs => rw [tokenizeChars]
                simp [hc, hd, hts]] at hw
            simp at hw
            subst hw
            simp [hc]
          · rw [tokenizeChars_nonws_nonws c d rest' w' ws' hc hd hts] at hw
            have ihw' := ih w' (by rw [hts]; simp)
            simp at hw
            rcases hw with hw | hw
            · subst hw
              refine ⟨by simp, ?_⟩
              intro x hx
              simp at hx
              rcases hx with hx | hx
              · subst hx; exact hc
              · exact ihw'.2 x hx
            · exact ih w (by rw [hts]; simp [hw])
        · rw [tokenizeChars_nonws_ws c d rest' hc hd] at hw
          simp at hw
          rcases hw with hw | hw
          · subst hw; simp [hc]
          · exact ih w hw
    · rw [tokenizeChars_ws c rest hc] at hw
      exact ih w hw

theorem tokenizeChars_single :
    ∀ w : List Char, w ≠ [] → (∀ c ∈ w, c.isWhitespace = false) →
      tokenizeChars w = [w]
  | [], h, _ => absurd rfl h
  | [c], _, hwf => tokenizeChars_one c (hwf c (by simp))
  | c :: d :: rest, _, hwf => by
    have hc : c.isWhitespace = false := hwf c (by simp)
    have hd : d.isWhitespace = false := hwf d (by simp)
    have ih := tokenizeChars_single (d :: rest) (by simp)
      (fun x hx => hwf x (by simp at hx ⊢; tauto))
    exact tokenizeChars_nonws_nonws c d rest (d :: rest) [] hc hd ih

theorem tokenizeChars_word_append :
    ∀ (w t : List Char), w ≠ [] → (∀ c ∈ w, c.isWhitespace = false) →
      tokenizeChars (w ++ ' ' :: t) = w :: tokenizeChars t
  | [], _, h, _ => absurd rfl h
  | [c], t, _, hwf => by
    have hc : c.isWhitespace = false := hwf c (by simp)
    have h1 : tokenizeChars (' ' :: t) = tokenizeChars t :=
      tokenizeChars_ws ' ' t (by decide)
    calc tokenizeChars ([c] ++ ' ' :: t)
        = [c] :: tokenizeChars (' ' :: t) :=
          tokenizeChars_nonws_ws c ' ' t hc (by decide)
      _ = [c] :: tokenizeChars t := by rw [h1]
  | c :: d :: rest, t, _, hwf => by
    have hc : c.isWhitespace = false := hwf c (by simp)
    have hd : d.isWhitespace = false := hwf d (by simp)
    have ih := tokenizeChars_word_append (d :: rest) t (by simp)
      (fun x hx => hwf x (by simp at hx ⊢; tauto))
    have : tokenizeChars (c :: (d :: rest ++ ' ' :: t)) =
        (c :: (d :: rest)) :: tokenizeChars t :=
      tokenizeChars_nonws_nonws c d (rest ++ ' ' :: t) (d :: rest)
        (tokenizeChars t) hc hd ih
    simpa using this

theorem tokenizeChars_joinChars :
    ∀ ws : List (List Char),
      (∀ w ∈ ws, w ≠ [] ∧ ∀ c ∈ w, c.isWhitespace = false) →
      tokenizeChars (joinChars ws) = ws
  | [], _ => rfl
  | [w], h => by
    have hw := h w (by simp)
    simpa [joinChars] using tokenizeChars_single w hw.1 hw.2
  | w :: v :: ws, h => by
    have hw := h w (by simp)
    have ih := tokenizeChars_joinChars (v :: ws) (fun x hx => h x (by simp at hx ⊢; tauto))
    simp only [joinChars]
    rw [tokenizeChars_word_append w _ hw.1 hw.2, ih]

theorem tokenize_wf (s : String) :
    ∀ w ∈ tokenize s, w ≠ "" ∧ ∀ c ∈ w.data, c.isWhitespace = false := by
  intro w hw
  simp only [tokenize, List.mem_map] at hw
  obtain ⟨l, hl, rfl⟩ := hw
  have h := tokenizeChars_wf s.data l hl
  refine ⟨?_, h.2⟩
  intro hcon
  apply h.1
  have hdata : (String.mk l).data = ("" : String).data := by rw [hcon]
  simpa using hdata

theorem tokenize_joinWords (ws : List String)
    (h : ∀ w ∈ ws, w ≠ "" ∧ ∀ c ∈ w.data, c.isWhitespace = false) :
    tokenize (joinWords ws) = ws := by
  simp only [tokenize, joinWords]
  rw [tokenizeChars_joinChars (ws.map String.data)]
  · rw [List.map_map]
    have hid : (String.mk ∘ String.data) = id := by
      funext s
      cases s
      rfl
    rw [hid, List.map_id]
  · intro w hw
    simp only [List.mem_map] at hw
    obtain ⟨x, hx, rfl⟩ := hw
    have hxw := h x hx
    refine ⟨?_, hxw.2⟩
    intro hcon
    apply hxw.1
    cases x
    simp at hcon
    simp [hcon]

/-! ## Chunker lemmas -/

theorem chunkSpecFrom_stop (words : List String) (cs ov ms start : Nat)
    (hov : ov < cs) (h : words.length ≤ start) :
    chunkSpecFrom words cs ov ms start = [] := by
  have h0 : words.length - start = 0 := by omega
  simp only [chunkSpecFrom, h0]
  rw [Nat.div_eq_of_lt (by omega)]
  simp

theorem chunkSpecFrom_step (words : List String) (cs ov ms start : Nat)
    (hov : ov < cs) (hlt : start < words.length) :
    chunkSpecFrom words cs ov ms start =
      (if ms ≤ ((words.drop start).take cs).length
       then [joinWords ((words.drop start).take cs)] else []) ++
      chunkSpecFrom words cs ov ms (start + (cs - ov)) := by
  have hspos : 0 < cs - ov := by omega
  have hK : (words.length - start + (cs - ov) - 1) / (cs - ov) =
      (words.length - (start + (cs - ov)) + (cs - ov) - 1) / (cs - ov) + 1 := by
    set s := cs - ov with hs
    set a := words.length - start with ha
    have ha1 : 1 ≤ a := by omega
    have hb : words.length - (start + s) = a - s := by omega
    rw [hb]
    rcases le_or_lt a s with hle | hlt2
    · rw [show a - s = 0 by omega, show a + s - 1 = (a - 1) + s by omega,
          Nat.add_div_right _ hspos,
          Nat.div_eq_of_lt (show a - 1 < s by omega),
          Nat.div_eq_of_lt (show 0 + s - 1 < s by omega)]
    · rw [show a + s - 1 = (a - 1) + s by omega,
          show a - s + s - 1 = a - 1 by omega,
          Nat.add_div_right _ hspos]
  simp only [chunkSpecFrom]
  rw [hK, List.range_succ_eq_map]
  simp only [List.map_cons, List.map_map, List.filterMap_cons]
  have hcomp : ((fun i => start + i * (cs - ov)) ∘ Nat.succ) =
      (fun i => (start + (cs - ov)) + i * (cs - ov)) := by
    funext i
    simp [Nat.succ_eq_add_one]
    ring
  rw [hcomp]
  simp only [Nat.zero_mul, Nat.add_zero]
  by_cases hms : ms ≤ cs ∧ ms ≤ words.length - start <;>
    simp [List.length_take, List.length_drop, hms]

theorem chunkLoop_eq_specFrom (words : List String) (cs ov ms : Nat) (hov : ov < cs) :
    ∀ fuel start, words.length - start ≤ fuel →
      chunkLoop words cs ov ms start fuel = chunkSpecFrom words cs ov ms start := by
  intro fuel
  induction fuel with
  | zero =>
    intro start h
    rw [chunkSpecFrom_stop words cs ov ms start hov (by omega)]
    rfl
  | succ fuel ih =>
    intro start h
    by_cases hlt : start < words.length
    · rw [chunkSpecFrom_step words cs ov ms start hov hlt]
      have hrec := ih (start + (cs - ov)) (by omega)
      simp only [chunkLoop, if_pos hlt, hrec]
      by_cases hms : ms ≤ cs ∧ ms ≤ words.length - start <;>
        simp [List.length_take, List.length_drop, hms]
    · rw [chunkSpecFrom_stop words cs ov ms start hov (by omega)]
      simp [chunkLoop, hlt]

theorem splitIntoChunks_eq_spec (text : String) (cs ov ms : Nat) (hov : ov < cs)
    (h : cs < (tokenize text).length) :
    splitIntoChunks text cs ov ms = chunkSpec (tokenize text) cs ov ms := by
  simp only [splitIntoChunks, chunkSpec]
  rw [if_neg (by omega)]
  exact chunkLoop_eq_specFrom _ cs ov ms hov _ 0 (by omega)

theorem mem_chunkSpecFrom (words : List String) (cs ov ms start : Nat) (c : String)
    (hc : c ∈ chunkSpecFrom words cs ov ms start) :
    ∃ st, ms ≤ ((words.drop st).take cs).length ∧
      c = joinWords ((words.drop st).take cs) := by
  simp only [chunkSpecFrom, List.mem_filterMap] at hc
  obtain ⟨st, _, hemit⟩ := hc
  by_cases h : ms ≤ ((words.drop st).take cs).length
  · rw [if_pos h] at hemit
    exact ⟨st, h, (Option.some_inj.mp hemit).symm⟩
  · rw [if_neg h] at hemit
    cases hemit

theorem chunk_token_bounds (text : String) (cs ov ms : Nat) (hov : ov < cs)
    (h : cs < (tokenize text).length) :
    ∀ c ∈ splitIntoChunks text cs ov ms,
      ms ≤ (tokenize c).length ∧ (tokenize c).length ≤ cs := by
  intro c hc
  rw [splitIntoChunks_eq_spec text cs ov ms hov h] at hc
  obtain ⟨st, hms, rfl⟩ := mem_chunkSpecFrom _ _ _ _ _ _ hc
  have hwf : ∀ x ∈ ((tokenize text).drop st).take cs,
      x ≠ "" ∧ ∀ ch ∈ x.data, ch.isWhitespace = false := by
    intro x hx
    exact tokenize_wf text x (List.drop_subset st _ (List.take_subset cs _ hx))
  rw [tokenize_joinWords _ hwf]
  exact ⟨hms, List.length_take_le cs ((tokenize text).drop st)⟩

theorem chunkLoop_fuel_stable (words : List String) (cs ov ms : Nat)
    (hov : ov < cs) (fuel : Nat) (h : words.length ≤ fuel) :
    chunkLoop words cs ov ms 0 fuel = chunkLoop words cs ov ms 0 words.length := by
  rw [chunkLoop_eq_specFrom words cs ov ms hov fuel 0 (by omega),
      chunkLoop_eq_specFrom words cs ov ms hov words.length 0 (by omega)]

theorem chunkSpec_600 (words : List String) (h : words.length = 600) :
    chunkSpec words 500 100 50 =
      [joinWords (words.take 500), joinWords (words.drop 400)] := by
  have hdrop : (words.drop 400).take 500 = words.drop 400 := by
    apply List.take_of_length_le
    simp [List.length_drop, h]
  simp only [chunkSpec, chunkSpecFrom, h]
  rw [show (600 - 0 + (500 - 100) - 1) / (500 - 100) = 2 by norm_num,
      show List.range 2 = [0, 1] from rfl]
  simp [List.filterMap_cons, List.length_take, List.length_drop, h, hdrop]

/-! ## Claim theorems: chunking -/

/-- C1: for every text and every valid configuration
(`size > overlap ≥ 0`, `min_size ≤ size`), chunking tokenizes on
whitespace and: if the token count is ≤ size it returns exactly one
chunk equal to the original text; otherwise it equals the spec's
sliding-window sequence over ascending window starts (windows joined
and emitted only when their token count ≥ min_size, a short trailing
remainder thus dropped), the loop's fuel model is stable (termination),
every emitted chunk's token count lies in [min_size, size], and a
600-token text with size 500 / overlap 100 / min_size 50 yields exactly
the two chunks starting at token indices 0 and 400. -/
theorem chunking_valid_config_correct (text : String) (cs ov ms : Nat)
    (hov : ov < cs) (hms : ms ≤ cs) :
    ((tokenize text).length ≤ cs → splitIntoChunks text cs ov ms = [text]) ∧
    (cs < (tokenize text).length →
      splitIntoChunks text cs ov ms = chunkSpec (tokenize text) cs ov ms) ∧
    (cs < (tokenize text).length →
      ∀ c ∈ splitIntoChunks text cs ov ms,
        ms ≤ (tokenize c).length ∧ (tokenize c).length ≤ cs) ∧
    (∀ fuel, (tokenize text).length ≤ fuel →
      chunkLoop (tokenize text) cs ov ms 0 fuel =
        chunkLoop (tokenize text) cs ov ms 0 (tokenize text).length) ∧
    ((tokenize text).length = 600 → cs = 500 → ov = 100 → ms = 50 →
      splitIntoChunks text cs ov ms =
        [joinWords ((tokenize text).take 500), joinWords ((tokenize text).drop 400)]) := by
  refine ⟨?_, ?_, ?_, ?_, ?_⟩
  · intro h
    simp [splitIntoChunks, h]
  · exact splitIntoChunks_eq_spec text cs ov ms hov
  · intro h c hc
    exact chunk_token_bounds text cs ov ms hov h c hc
  · intro fuel hfuel
    exact chunkLoop_fuel_stable (tokenize text) cs ov ms hov fuel hfuel
  · intro h600 hcs hovv hmss
    subst hcs; subst hovv; subst hmss
    rw [splitIntoChunks_eq_spec text 500 100 50 (by omega) (by omega)]
    exact chunkSpec_600 (tokenize text) h600

/-- C1 witness: the theorem instantiated at text `"a b c"` with
size 2, overlap 1, min_size 1; the hypotheses hold and the
characterization conjunct yields the concrete chunk list. -/
theorem chunking_valid_config_correct_instance :
    ((1 : Nat) < 2 ∧ (1 : Nat) ≤ 2) ∧
    splitIntoChunks "a b c" 2 1 1 = chunkSpec (tokenize "a b c") 2 1 1 ∧
    splitIntoChunks "a b c" 2 1 1 = ["a b", "b c", "c"] :=
  ⟨by decide,
   (chunking_valid_config_correct "a b c" 2 1 1 (by decide) (by decide)).2.1 (by decide),
   by decide⟩

theorem chunkLoop_all_dropped (words : List String) (cs ov ms : Nat)
    (hms : cs < ms) :
    ∀ fuel start, chunkLoop words cs ov ms start fuel = [] := by
  intro fuel
  induction fuel with
  | zero => intro start; rfl
  | succ fuel ih =>
    intro start
    by_cases hlt : start < words.length
    · have hlen : ¬ (ms ≤ cs ∧ ms ≤ words.length - start) := by omega
      simp [chunkLoop, hlt, List.length_take, List.length_drop, hlen, ih]
    · simp [chunkLoop, hlt]

theorem chunkLoop_stuck_length (words : List String) (cs ov ms : Nat)
    (hov : cs ≤ ov) (hw : 0 < words.length) (hms1 : ms ≤ cs)
    (hms2 : ms ≤ words.length) :
    ∀ fuel, (chunkLoop words cs ov ms 0 fuel).length = fuel := by
  intro fuel
  induction fuel with
  | zero => rfl
  | succ fuel ih =>
    have hstride : cs - ov = 0 := by omega
    have hlen : ms ≤ ((words.drop 0).take cs).length := by
      simp [List.length_take, List.length_drop]
      omega
    simp only [chunkLoop, if_pos hw, if_pos hlen, hstride, Nat.add_zero]
    simp [ih]

/-- C2 counterexample: the chunking code has no precondition check and
no `ConfigError`: with the invalid configuration `min_size = 10 >
size = 5` it simply proceeds and returns the whole two-token text as a
single chunk instead of failing fast. -/
theorem chunking_invalid_config_no_error :
    splitIntoChunks "a b" 5 0 10 = ["a b"] := by decide

/-- C2 amended: chunking performs no precondition validation and cannot
raise `ConfigError`.  On `min_size > size` it still returns the whole
text when the token count is ≤ size, and silently emits no chunk at all
otherwise; on `overlap ≥ size` (with a nonempty tokenization and a
satisfiable min_size) the loop never advances, so each unit of fuel
emits another copy of the same window — the source loop never
terminates. -/
theorem chunking_no_validation_behaviour (text : String) (cs ov ms : Nat) :
    (cs < ms → (tokenize text).length ≤ cs →
      splitIntoChunks text cs ov ms = [text]) ∧
    (cs < ms → cs < (tokenize text).length →
      splitIntoChunks text cs ov ms = []) ∧
    (cs ≤ ov → 0 < (tokenize text).length → ms ≤ cs →
      ms ≤ (tokenize text).length →
      ∀ fuel, (chunkLoop (tokenize text) cs ov ms 0 fuel).length = fuel) := by
  refine ⟨?_, ?_, ?_⟩
  · intro _ h
    simp [splitIntoChunks, h]
  · intro hms h
    simp only [splitIntoChunks]
    rw [if_neg (by omega)]
    exact chunkLoop_all_dropped (tokenize text) cs ov ms hms _ 0
  · intro hov hw hms1 hms2
    exact chunkLoop_stuck_length (tokenize text) cs ov ms hov hw hms1 hms2

/-- C2 witness: with size 1, overlap 1, min_size 1 on a three-token
text (an invalid configuration: overlap ≥ size) the loop model emits
one chunk per unit of fuel — it never reaches a fixed point. -/
theorem chunking_no_validation_behaviour_instance :
    ((1 : Nat) ≤ 1 ∧ 0 < (tokenize "a b c").length ∧
      (1 : Nat) ≤ 1 ∧ 1 ≤ (tokenize "a b c").length) ∧
    (chunkLoop (tokenize "a b c") 1 1 1 0 4).length = 4 :=
  ⟨by decide,
   (chunking_no_validation_behaviour "a b c" 1 1 1).2.2
     (by decide) (by decide) (by decide) (by decide) 4⟩

/-! ## Claim theorems: localized-value resolution -/

/-- C3 counterexample: on the locale map `{no: "", en: "x"}` the code's
resolution (`d.get('no', d.get('en', d.get('int', '')))`) returns the
present-but-empty preferred value `""`, not the first non-empty string
`"x"` that the spec-modelled resolution returns. -/
theorem resolve_empty_preferred_not_skipped :
    resolveLocalized [("no", Json.str ""), ("en", Json.str "x")] = Json.str "" ∧
    resolveFirstNonEmptySpec [("no", Json.str ""), ("en", Json.str "x")] = Json.str "x" ∧
    resolveLocalized [("no", Json.str ""), ("en", Json.str "x")] ≠
      resolveFirstNonEmptySpec [("no", Json.str ""), ("en", Json.str "x")] := by
  refine ⟨rfl, rfl, ?_⟩
  intro h
  simp [resolveLocalized, resolveFirstNonEmptySpec, List.lookup] at h

/-- C3 amended: resolution returns the value at the first *present* key
among \x7bno, en, int\x7d — even when that value is the empty string — and
returns `""` when none of the keys is present; in particular a map
lacking the preferred key returns the secondary value, and the empty
map returns `""`. -/
theorem resolve_first_present_semantics (m : List (String × Json)) :
    (∀ v, m.lookup "no" = some v → resolveLocalized m = v) ∧
    (m.lookup "no" = none → ∀ v, m.lookup "en" = some v → resolveLocalized m = v) ∧
    (m.lookup "no" = none → m.lookup "en" = none →
      ∀ v, m.lookup "int" = some v → resolveLocalized m = v) ∧
    (m.lookup "no" = none → m.lookup "en" = none → m.lookup "int" = none →
      resolveLocalized m = Json.str "") ∧
    resolveLocalized [] = Json.str "" := by
  refine ⟨?_, ?_, ?_, ?_, rfl⟩
  · intro v hv
    simp [resolveLocalized, hv]
  · intro h1 v hv
    simp [resolveLocalized, h1, hv]
  · intro h1 h2 v hv
    simp [resolveLocalized, h1, h2, hv]
  · intro h1 h2 h3
    simp [resolveLocalized, h1, h2, h3]

/-- C3 witness: the map `{en: "x"}` lacks the preferred key, and
resolution returns the secondary value `"x"`. -/
theorem resolve_first_present_semantics_instance :
    (List.lookup "no" [("en", Json.str "x")] = none) ∧
    resolveLocalized [("en", Json.str "x")] = Json.str "x" :=
  ⟨rfl,
   (resolve_first_present_semantics [("en", Json.str "x")]).2.1 rfl (Json.str "x") rfl⟩

/-! ## Claim theorems: file parsing -/

/-- C4 counterexample: the malformed JSON content `"{"` (in a `.json`
file, where `json.loads` raises `JSONDecodeError`, modelled by
`decoded = none`) makes `_parse_cv_file` return `("", \x7b\x7d)` — the very
same value returned for empty content — instead of failing with a
ParseError. -/
theorem malformed_json_conflated_with_empty :
    parseCvFile ⟨"bad.json", "bad", ".json", "bad.json"⟩ "\x7b" none = ("", []) ∧
    parseCvFile ⟨"bad.json", "bad", ".json", "bad.json"⟩ "" none = ("", []) ∧
    parseCvFile ⟨"bad.json", "bad", ".json", "bad.json"⟩ "\x7b" none =
      parseCvFile ⟨"bad.json", "bad", ".json", "bad.json"⟩ "" none := by
  refine ⟨rfl, rfl, rfl⟩

/-- C4 amended: on malformed JSON the parser does not raise: the
`except json.JSONDecodeError` arm logs and returns `("", \x7b\x7d)`, the
exact value the empty-input path returns, so malformed structured input
is conflated with empty input (callers skip it as if it were an empty
file). -/
theorem malformed_json_returns_empty_pair (p : CvPath) (content : String) :
    (p.suffix = ".json" → parseCvFile p content none = ("", [])) ∧
    (content.data.all Char.isWhitespace = true →
      ∀ decoded, parseCvFile p content decoded = ("", [])) := by
  constructor
  · intro hsuffix
    by_cases hws : content.data.all Char.isWhitespace = true
    · simp [parseCvFile, hws]
    · simp [parseCvFile, hws, hsuffix]
  · intro hws decoded
    simp [parseCvFile, hws]

/-- C4 witness: instantiated at the `.json` path with non-whitespace
malformed content. -/
theorem malformed_json_returns_empty_pair_instance :
    ((".json" : String) = ".json") ∧
    parseCvFile ⟨"bad.json", "bad", ".json", "bad.json"⟩ "not json" none = ("", []) :=
  ⟨rfl,
   (malformed_json_returns_empty_pair ⟨"bad.json", "bad", ".json", "bad.json"⟩ "not json").1 rfl⟩

/-! ## Reranker sort lemmas -/

/-- Descending-score order with the stable tie-break: `a` is ranked
before `b` iff its score is higher, or the scores tie and `a` appeared
earlier in the original retrieval order. -/
def RankBefore (a b : Nat × Int) : Prop :=
  b.2 < a.2 ∨ (a.2 = b.2 ∧ a.1 < b.1)

theorem mem_insertDesc (x y : Nat × Int) :
    ∀ l : List (Nat × Int), y ∈ insertDesc x l ↔ y = x ∨ y ∈ l
  | [] => by simp [insertDesc]
  | z :: zs => by
    by_cases h : z.2 ≤ x.2
    · simp [insertDesc, h]
    · simp only [insertDesc, if_neg h, List.mem_cons, mem_insertDesc x y zs]
      tauto

theorem mem_sortDesc (y : Nat × Int) :
    ∀ l : List (Nat × Int), y ∈ sortDesc l ↔ y ∈ l
  | [] => by simp [sortDesc]
  | x :: xs => by
    simp [sortDesc, mem_insertDesc, mem_sortDesc y xs]

theorem length_insertDesc (x : Nat × Int) :
    ∀ l : List (Nat × Int), (insertDesc x l).length = l.length + 1
  | [] => rfl
  | z :: zs => by
    by_cases h : z.2 ≤ x.2
    · simp [insertDesc, h]
    · simp [insertDesc, h, length_insertDesc x zs]

theorem length_sortDesc :
    ∀ l : List (Nat × Int), (sortDesc l).length = l.length
  | [] => rfl
  | x :: xs => by
    simp [sortDesc, length_insertDesc, length_sortDesc xs]

theorem pairwise_insertDesc (x : Nat × Int) :
    ∀ l : List (Nat × Int), l.Pairwise RankBefore →
      (∀ y ∈ l, x.1 < y.1) → (insertDesc x l).Pairwise RankBefore
  | [], _, _ => by simp [insertDesc, List.pairwise_cons]
  | y :: ys, hl, hx => by
    rcases List.pairwise_cons.mp hl with ⟨hyys, hys⟩
    by_cases h : y.2 ≤ x.2
    · simp only [insertDesc, if_pos h]
      refine List.pairwise_cons.mpr ⟨?_, hl⟩
      intro z hz
      rcases List.mem_cons.mp hz with rfl | hz'
      · rcases lt_or_eq_of_le h with hlt | heq
        · exact Or.inl hlt
        · exact Or.inr ⟨heq.symm, hx z (by simp)⟩
      · rcases hyys z hz' with hlt | ⟨heq, _⟩
        · rcases lt_or_eq_of_le h with hlt2 | heq2
          · exact Or.inl (lt_trans hlt hlt2)
          · exact Or.inl (heq2 ▸ hlt)
        · have hz2 : z.2 ≤ x.2 := by omega
          rcases lt_or_eq_of_le hz2 with hlt2 | heq2
          · exact Or.inl hlt2
          · exact Or.inr ⟨heq2.symm, hx z (by simp [hz'])⟩
    · simp only [insertDesc, if_neg h]
      refine List.pairwise_cons.mpr ⟨?_, ?_⟩
      · intro z hz
        rcases (mem_insertDesc x z ys).mp hz with rfl | hz'
        · exact Or.inl (by omega)
        · exact hyys z hz'
      · exact pairwise_insertDesc x ys hys (fun z hz => hx z (by simp [hz]))

theorem pairwise_sortDesc :
    ∀ l : List (Nat × Int), l.Pairwise (fun a b => a.1 < b.1) →
      (sortDesc l).Pairwise RankBefore
  | [], _ => by simp [sortDesc]
  | x :: xs, hl => by
    rcases List.pairwise_cons.mp hl with ⟨hxxs, hxs⟩
    exact pairwise_insertDesc x (sortDesc xs) (pairwise_sortDesc xs hxs)
      (fun y hy => hxxs y ((mem_sortDesc y xs).mp hy))

theorem pairwise_fst_lt_enumFrom {α : Type} :
    ∀ (l : List α) (n : Nat), (l.enumFrom n).Pairwise (fun a b => a.1 < b.1)
  | [], _ => by simp
  | x :: xs, n => by
    refine List.pairwise_cons.mpr ⟨?_, pairwise_fst_lt_enumFrom xs (n + 1)⟩
    intro y hy
    have : n + 1 ≤ y.1 :=
      (List.mk_mem_enumFrom_iff_le_and_getElem?_sub.mp (by simpa using hy)).1
    simpa using this

theorem pairwise_fst_lt_enum {α : Type} (l : List α) :
    (l.enum).Pairwise (fun a b => a.1 < b.1) := by
  simpa [List.enum] using pairwise_fst_lt_enumFrom l 0

/-! ## Claim theorems: reranking -/

theorem rerank_sublist_sorted (predict : List (String × String) → List Int)
    (q : String) (docs : List String) (tk : Option Nat) :
    (rerank predict q docs tk).Pairwise RankBefore := by
  by_cases hd : docs = []
  · simp [rerank, hd]
  · have hsorted : (sortDesc ((predict (docs.map (fun d => (q, d)))).enum)).Pairwise
        RankBefore :=
      pairwise_sortDesc _ (pairwise_fst_lt_enum _)
    simp only [rerank, if_neg hd]
    match tk with
    | none => exact hsorted
    | some k =>
      by_cases hk : k ≠ 0
      · simp only [if_pos hk]
        exact hsorted.sublist (List.take_sublist k _)
      · simp only [if_neg hk]
        exact hsorted

theorem rerank_carries_scores (predict : List (String × String) → List Int)
    (q : String) (docs : List String) (tk : Option Nat) :
    ∀ p ∈ rerank predict q docs tk,
      (predict (docs.map (fun d => (q, d))))[p.1]? = some p.2 := by
  intro p hp
  by_cases hd : docs = []
  · simp [rerank, hd] at hp
  · have hmem : p ∈ sortDesc ((predict (docs.map (fun d => (q, d)))).enum) := by
      rcases tk with _ | k
      · simpa only [rerank, if_neg hd] using hp
      · by_cases hk : k ≠ 0
        · simp only [rerank, if_neg hd, if_pos hk] at hp
          exact List.take_subset k _ hp
        · simpa only [rerank, if_neg hd, if_neg hk] using hp
    have := (mem_sortDesc p _).mp hmem
    exact List.mem_enum_iff_getElem?.mp this

theorem rerank_length_le (predict : List (String × String) → List Int)
    (q : String) (docs : List String) (k : Nat) (hk : 0 < k) :
    (rerank predict q docs (some k)).length ≤ k ∧
    (rerank predict q docs (some k)).length ≤
      (predict (docs.map (fun d => (q, d)))).length := by
  by_cases hd : docs = []
  · simp [rerank, hd]
  · simp only [rerank, if_neg hd, if_pos (by omega : k ≠ 0)]
    constructor
    · exact List.length_take_le k _
    · calc ((sortDesc ((predict (docs.map (fun d => (q, d)))).enum)).take k).length
          ≤ (sortDesc ((predict (docs.map (fun d => (q, d)))).enum)).length :=
            List.length_take_le' k _
        _ = _ := by rw [length_sortDesc, List.enum_length]

/-- C6: when reranking is applied (a requested positive `top_k`, a
non-empty candidate list, and the collaborator contract of one score
per query-document pair), the reranked output is sorted by descending
score with the stable tie-break on original retrieval order
(`RankBefore`), every kept candidate carries its own score
(`scores[index] = score`), the result never has more entries than
requested nor more than were fetched, and `rerank_search_results`
reorders all parallel arrays to that order, attaching the scores
array. -/
theorem rerank_sorted_stable_bounded
    (predict : List (String × String) → List Int) (q : String)
    (docs : List String) (sr : SearchResult) (k : Nat)
    (hk : 0 < k)
    (hpred : (predict (docs.map (fun d => (q, d)))).length = docs.length)
    (hne : docs ≠ [])
    (hsr : sr.documents = docs) :
    (rerank predict q docs (some k)).Pairwise RankBefore ∧
    (∀ p ∈ rerank predict q docs (some k),
      (predict (docs.map (fun d => (q, d))))[p.1]? = some p.2) ∧
    (rerank predict q docs (some k)).length ≤ k ∧
    (rerank predict q docs (some k)).length ≤ docs.length ∧
    (rerank_search_results predict q sr (some k)).ids.length ≤ k ∧
    (rerank_search_results predict q sr (some k)).ids.length ≤ docs.length ∧
    (rerank_search_results predict q sr (some k)).documents.length =
      (rerank_search_results predict q sr (some k)).ids.length ∧
    (rerank_search_results predict q sr (some k)).metadatas.length =
      (rerank_search_results predict q sr (some k)).ids.length ∧
    (rerank_search_results predict q sr (some k)).distances.length =
      (rerank_search_results predict q sr (some k)).ids.length ∧
    (rerank_search_results predict q sr (some k)).rerank_scores =
      some ((rerank predict q docs (some k)).map (fun p => p.2)) := by
  subst hsr
  have hlen := rerank_length_le predict q sr.documents k hk
  have hlen2 : (rerank predict q sr.documents (some k)).length ≤ sr.documents.length := by
    calc (rerank predict q sr.documents (some k)).length
        ≤ (predict (sr.documents.map (fun d => (q, d)))).length := hlen.2
      _ = sr.documents.length := hpred
  refine ⟨rerank_sublist_sorted predict q sr.documents (some k),
    rerank_carries_scores predict q sr.documents (some k), hlen.1, hlen2,
    ?_, ?_, ?_, ?_, ?_, ?_⟩ <;>
    simp only [rerank_search_results, if_neg hne, List.length_map] <;>
    first
      | exact hlen.1
      | exact hlen2

/-- C6 witness: two candidates, constant scorer, `top_k = 1`. -/
theorem rerank_sorted_stable_bounded_instance :
    ((0 : Nat) < 1 ∧
     ((fun (ps : List (String × String)) => ps.map (fun _ => (3 : Int)))
        ((["da", "db"] : List String).map (fun d => ("q", d)))).length =
       (["da", "db"] : List String).length ∧
     (["da", "db"] : List String) ≠ []) ∧
    (rerank (fun ps => ps.map (fun _ => (3 : Int))) "q" ["da", "db"] (some 1)).length ≤ 1 :=
  ⟨⟨by decide, by decide, by decide⟩,
   (rerank_sorted_stable_bounded (fun ps => ps.map (fun _ => (3 : Int))) "q"
     ["da", "db"]
     { ids := ["a", "b"], documents := ["da", "db"],
       metadatas := [Json.null, Json.null], distances := [some 1, some 2],
       rerank_scores := none }
     1 (by decide) (by decide) (by decide) rfl).2.2.1⟩

/-! ## Search-layer lemmas -/

theorem truncateResult_ids_length_le (n : Nat) (sr : SearchResult) :
    (truncateResult n sr).ids.length ≤ n ∨
    (truncateResult n sr).ids.length = sr.ids.length := by
  simp only [truncateResult]
  by_cases h : n < sr.ids.length
  · simp only [if_pos h]
    left
    simp [List.length_take]
  · simp [if_neg h]

theorem truncateResult_ids_le (n : Nat) (sr : SearchResult) :
    (truncateResult n sr).ids.length ≤ max n sr.ids.length := by
  rcases truncateResult_ids_length_le n sr with h | h <;> omega

theorem search_ok_ids_length_le
    (queryFn : Nat → Option QueryRaw) (construct : Option Reranker)
    (enable : Bool) (defaultN maxN poolK : Nat) (cell : RerankerCell)
    (q : String) (nOpt : Option Nat) (useRROpt : Option Bool)
    (r : SearchResult) (c' : RerankerCell)
    (h : search queryFn construct enable defaultN maxN poolK cell q nOpt useRROpt =
      (Except.ok r, c')) :
    r.ids.length ≤ effectiveN defaultN maxN nOpt := by
  simp only [search] at h
  rcases hq : queryFn (fetchCount poolK (effectiveN defaultN maxN nOpt)
      (useRROpt.getD enable)) with _ | raw
  · simp [hq] at h
  · simp only [hq] at h
    by_cases hids : raw.ids = []
    · simp only [if_pos hids, Prod.mk.injEq, Except.ok.injEq] at h
      rw [← h.1]
      exact Nat.zero_le _
    · simp only [if_neg hids, Prod.mk.injEq, Except.ok.injEq] at h
      rw [← h.1]
      simp only [truncateResult]
      by_cases hlt : effectiveN defaultN maxN nOpt <
          (if (useRROpt.getD enable) = true ∧ 0 < (baseOf raw).documents.length then
            match getReranker enable construct cell with
            | RerankerCell.ready rr =>
              (rerank_search_results rr.predict q (baseOf raw)
                (some (effectiveN defaultN maxN nOpt)), RerankerCell.ready rr)
            | c => (baseOf raw, c)
          else (baseOf raw, cell)).1.ids.length
      · simp only [if_pos hlt]
        simp [List.length_take]
      · simp only [if_neg hlt]
        omega

theorem truncateResult_shape (n : Nat) (sr : SearchResult)
    (h1 : sr.documents.length = sr.ids.length)
    (h2 : sr.metadatas.length = sr.ids.length)
    (h3 : sr.distances.length = sr.ids.length)
    (hsc : ∀ l, sr.rerank_scores = some l → l.length = sr.ids.length) :
    (truncateResult n sr).documents.length = (truncateResult n sr).ids.length ∧
    (truncateResult n sr).metadatas.length = (truncateResult n sr).ids.length ∧
    (truncateResult n sr).distances.length = (truncateResult n sr).ids.length ∧
    (∀ l, (truncateResult n sr).rerank_scores = some l →
      l.length = (truncateResult n sr).ids.length ∨ l = []) ∧
    (sr.rerank_scores = none →
      (truncateResult n sr).rerank_scores = none ∨
      (truncateResult n sr).rerank_scores = some []) := by
  simp only [truncateResult]
  by_cases h : n < sr.ids.length
  · simp only [if_pos h]
    have hdist : sr.distances ≠ [] := by
      intro hcon
      rw [hcon] at h3
      simp at h3
      omega
    refine ⟨?_, ?_, ?_, ?_, ?_⟩
    · simp [List.length_take, h1]
    · simp [List.length_take, h2]
    · simp [hdist, List.length_take, h3]
    · intro l hl
      rcases hscval : sr.rerank_scores with _ | l0
      · right
        simp only [hscval, Option.getD_none] at hl
        have hleq : l = List.take n ([] : List Int) := Option.some_inj.mp hl.symm
        simpa using hleq
      · left
        simp only [hscval, Option.getD_some] at hl
        have hll : l = l0.take n := Option.some_inj.mp hl.symm
        have := hsc l0 hscval
        simp [hll, List.length_take, this]
    · intro hnone
      right
      simp [hnone]
  · simp only [if_neg h]
    refine ⟨h1, h2, h3, ?_, fun hn => Or.inl hn⟩
    intro l hl
    exact Or.inl (hsc l hl)

theorem rerank_search_results_shape
    (predict : List (String × String) → List Int) (q : String)
    (base : SearchResult) (tk : Option Nat) (hne : base.documents ≠ []) :
    (rerank_search_results predict q base tk).documents.length =
      (rerank_search_results predict q base tk).ids.length ∧
    (rerank_search_results predict q base tk).metadatas.length =
      (rerank_search_results predict q base tk).ids.length ∧
    (rerank_search_results predict q base tk).distances.length =
      (rerank_search_results predict q base tk).ids.length ∧
    (∀ l, (rerank_search_results predict q base tk).rerank_scores = some l →
      l.length = (rerank_search_results predict q base tk).ids.length) := by
  refine ⟨?_, ?_, ?_, ?_⟩ <;>
    simp only [rerank_search_results, if_neg hne, List.length_map]
  intro l hl
  have hleq : l = (rerank predict q base.documents tk).map (fun p => p.2) :=
    Option.some_inj.mp hl.symm
  simp [hleq]

/-! ## Claim theorems: search orchestration -/

/-- C5: once reranker construction has failed (`_reranker = False`),
the cell stays `failed` under every later `_get_reranker` call — the
constructor outcome argument is never even consulted — and a search
call that requests reranking returns the plain distance-ordered
truncation of the fetched candidates, as a normal result (`Except.ok`),
with the cell still `failed`. -/
theorem reranker_failure_permanent_unranked
    (queryFn : Nat → Option QueryRaw) (construct : Option Reranker)
    (enable : Bool) (defaultN maxN poolK : Nat)
    (q : String) (nOpt : Option Nat) (raw : QueryRaw)
    (hq : queryFn (fetchCount poolK (effectiveN defaultN maxN nOpt) true) = some raw)
    (hne : raw.ids ≠ []) :
    (∀ c, getReranker enable c RerankerCell.failed = RerankerCell.failed) ∧
    search queryFn construct enable defaultN maxN poolK RerankerCell.failed
        q nOpt (some true) =
      (Except.ok (truncateResult (effectiveN defaultN maxN nOpt) (baseOf raw)),
       RerankerCell.failed) := by
  constructor
  · intro c
    cases enable <;> rfl
  · have hg : getReranker enable construct RerankerCell.failed =
        RerankerCell.failed := by cases enable <;> rfl
    simp only [search, Option.getD_some, hq, if_neg hne, hg]
    by_cases hbd : True ∧ 0 < (baseOf raw).documents.length
    · simp [hbd]
    · simp [hbd]

/-- C5 witness: a failed cell with a working constructor available and
a two-candidate index answer; the search returns the distance-ordered
candidates and the cell stays `failed`. -/
def rawTwo : QueryRaw :=
  { ids := [["a", "b"]], documents := [["da", "db"]],
    metadatas := [[Json.null, Json.null]], distances := some [[1, 2]] }

theorem reranker_failure_permanent_unranked_instance :
    ((fun (_ : Nat) => some rawTwo)
        (fetchCount 50 (effectiveN 12 20 (some 12)) true) = some rawTwo ∧
      rawTwo.ids ≠ []) ∧
    search (fun _ => some rawTwo) (some ⟨fun ps => ps.map (fun _ => 7)⟩)
        true 12 20 50 RerankerCell.failed "q" (some 12) (some true) =
      (Except.ok (truncateResult (effectiveN 12 20 (some 12)) (baseOf rawTwo)),
       RerankerCell.failed) :=
  ⟨⟨rfl, by decide⟩,
   (reranker_failure_permanent_unranked (fun _ => some rawTwo)
     (some ⟨fun ps => ps.map (fun _ => 7)⟩) true 12 20 50 "q" (some 12) rawTwo
     rfl (by decide)).2⟩

/-- C7 counterexample: with the reranker already Disabled
(`cell = failed`) and reranking requested, the code still fetches
`max(pool, n) = 50` candidates, not `n = 12` as the claim states for
the disabled case: the fetch-count computation (cv_indexer.py lines
546-547) never reads the reranker state.  A query backend that only
answers at `k = 50` therefore succeeds, while at the claim's predicted
`k = 12` it would have failed. -/
theorem fetch_count_ignores_disabled_state :
    fetchCount 50 (effectiveN 12 20 (some 12)) true = 50 ∧
    (50 : Nat) ≠ 12 ∧
    (fun k => if k = 50 then some rawTwo else none) 12 = none ∧
    (search (fun k => if k = 50 then some rawTwo else none)
        none true 12 20 50 RerankerCell.failed "q" (some 12) (some true)).1 =
      Except.ok (truncateResult 12 (baseOf rawTwo)) :=
  ⟨by decide, by decide, rfl, rfl⟩

/-- C7 amended: the requested count is clamped to the configured
maximum, and the fetch count is `max(pool, n)` whenever reranking is
requested — regardless of the reranker state — and `n` otherwise; in
the scenario (n = 12, pool 50, reranking on) the index is queried for
50 candidates and any successful result has at most 12 entries. -/
theorem fetch_count_and_clamp_semantics
    (defaultN maxN poolK : Nat) (nOpt : Option Nat) :
    effectiveN defaultN maxN nOpt ≤ maxN ∧
    (∀ n, fetchCount poolK n true = max poolK n) ∧
    (∀ n, fetchCount poolK n false = n) ∧
    (effectiveN 12 20 (some 12) = 12 ∧ fetchCount 50 12 true = 50) ∧
    (∀ queryFn construct cell q r c',
      search queryFn construct true 12 20 50 cell q (some 12) (some true) =
        (Except.ok r, c') →
      r.ids.length ≤ 12) := by
  refine ⟨min_le_right _ _, fun n => rfl, fun n => by simp [fetchCount],
    ⟨by decide, by decide⟩, ?_⟩
  intro queryFn construct cell q r c' h
  have := search_ok_ids_length_le queryFn construct true 12 20 50 cell q
    (some 12) (some true) r c' h
  simpa using this

/-- C7 witness: the amended theorem applied at the defaults, with the
search conjunct instantiated at a concrete two-candidate backend. -/
theorem fetch_count_and_clamp_semantics_instance :
    effectiveN 12 20 (some 12) ≤ 20 ∧
    (search (fun _ => some rawTwo) none true 12 20 50 RerankerCell.failed
        "q" (some 12) (some true)).1.toOption.elim 0 (fun r => r.ids.length) ≤ 12 := by
  refine ⟨(fetch_count_and_clamp_semantics 12 20 50 (some 12)).1, ?_⟩
  have h := (fetch_count_and_clamp_semantics 12 20 50 (some 12)).2.2.2.2
    (fun _ => some rawTwo) none RerankerCell.failed "q"
    (truncateResult 12 (baseOf rawTwo)) RerankerCell.failed rfl
  simpa using h

/-- C8: if the similarity-index query raises during a search call, the
failure propagates to the caller (`Except.error`), no partial result is
produced, and the reranker cell is untouched (the search body performs
no index mutation: its only collaborator call is the read-only
`collection.query`). -/
theorem search_index_failure_propagates
    (queryFn : Nat → Option QueryRaw) (construct : Option Reranker)
    (enable : Bool) (defaultN maxN poolK : Nat) (cell : RerankerCell)
    (q : String) (nOpt : Option Nat) (useRROpt : Option Bool)
    (hfail : ∀ k, queryFn k = none) :
    search queryFn construct enable defaultN maxN poolK cell q nOpt useRROpt =
      (Except.error SearchErr.searchError, cell) := by
  simp only [search, hfail]

/-- C8 witness: a backend that always raises. -/
theorem search_index_failure_propagates_instance :
    search (fun _ => none) none true 12 20 50 RerankerCell.uninit "q" none none =
      (Except.error SearchErr.searchError, RerankerCell.uninit) :=
  search_index_failure_propagates (fun _ => none) none true 12 20 50
    RerankerCell.uninit "q" none none (fun _ => rfl)

/-- C9 counterexample: an unranked call (reranker Disabled) that
fetched more candidates (2) than requested (n = 1) goes through the
truncation block, which installs a `rerank_scores` key holding the
empty list: the returned structure carries rerank scores on a call
where reranking was never applied, and that array's length (0) differs
from the other arrays' length (1). -/
theorem unranked_truncated_result_carries_empty_scores :
    (search (fun _ => some rawTwo) none true 12 20 50 RerankerCell.failed
        "q" (some 1) (some true)).1 =
      Except.ok { ids := ["a"], documents := ["da"], metadatas := [Json.null],
                  distances := [some 1], rerank_scores := some [] } ∧
    (some ([] : List Int) ≠ (none : Option (List Int))) ∧
    ([] : List Int).length ≠ (["a"] : List String).length :=
  ⟨rfl, by decide, by decide⟩

/-- C9 amended: every successful search result has parallel
ids/documents/metadatas/distances arrays of equal length, at most the
effective requested count; when a `rerank_scores` array is present it
is either of that same length (reranking applied) or empty (an
unranked call that went through the truncation block); on calls where
reranking was not applied the scores entry is absent or the empty
list. -/
theorem search_result_parallel_arrays
    (queryFn : Nat → Option QueryRaw) (construct : Option Reranker)
    (enable : Bool) (defaultN maxN poolK : Nat) (cell : RerankerCell)
    (q : String) (nOpt : Option Nat) (useRROpt : Option Bool)
    (raw : QueryRaw) (r : SearchResult) (c' : RerankerCell)
    (hq : queryFn (fetchCount poolK (effectiveN defaultN maxN nOpt)
      (useRROpt.getD enable)) = some raw)
    (h1 : (baseOf raw).documents.length = (baseOf raw).ids.length)
    (h2 : (baseOf raw).metadatas.length = (baseOf raw).ids.length)
    (h3 : (baseOf raw).distances.length = (baseOf raw).ids.length)
    (h : search queryFn construct enable defaultN maxN poolK cell q nOpt useRROpt =
      (Except.ok r, c')) :
    r.documents.length = r.ids.length ∧
    r.metadatas.length = r.ids.length ∧
    r.distances.length = r.ids.length ∧
    r.ids.length ≤ effectiveN defaultN maxN nOpt ∧
    (∀ l, r.rerank_scores = some l → l.length = r.ids.length ∨ l = []) ∧
    ((useRROpt.getD enable = false ∨
        ∀ rr, getReranker enable construct cell ≠ RerankerCell.ready rr) →
      r.rerank_scores = none ∨ r.rerank_scores = some []) := by
  have hle := search_ok_ids_length_le queryFn construct enable defaultN maxN
    poolK cell q nOpt useRROpt r c' h
  simp only [search, hq] at h
  by_cases hids : raw.ids = []
  · simp only [if_pos hids, Prod.mk.injEq, Except.ok.injEq] at h
    obtain ⟨hr, _⟩ := h
    subst hr
    refine ⟨rfl, rfl, rfl, Nat.zero_le _, ?_, fun _ => Or.inl rfl⟩
    intro l hl
    cases hl
  · simp only [if_neg hids, Prod.mk.injEq, Except.ok.injEq] at h
    obtain ⟨hr, _⟩ := h
    subst hr
    by_cases hcond : (useRROpt.getD enable) = true ∧
        0 < (baseOf raw).documents.length
    · rcases hget : getReranker enable construct cell with _ | rr | _
      · simp only [if_pos hcond, hget] at hle ⊢
        have ht := truncateResult_shape (effectiveN defaultN maxN nOpt)
          (baseOf raw) h1 h2 h3 (fun l hl => by cases hl)
        exact ⟨ht.1, ht.2.1, ht.2.2.1, hle, ht.2.2.2.1,
          fun _ => ht.2.2.2.2 rfl⟩
      · simp only [if_pos hcond, hget] at hle ⊢
        have hbne : (baseOf raw).documents ≠ [] := by
          intro hcon
          rw [hcon] at hcond
          simp at hcond
        have hs := rerank_search_results_shape rr.predict q (baseOf raw)
          (some (effectiveN defaultN maxN nOpt)) hbne
        have ht := truncateResult_shape (effectiveN defaultN maxN nOpt)
          (rerank_search_results rr.predict q (baseOf raw)
            (some (effectiveN defaultN maxN nOpt)))
          hs.1 hs.2.1 hs.2.2.1 (fun l hl => hs.2.2.2 l hl)
        refine ⟨ht.1, ht.2.1, ht.2.2.1, hle, ht.2.2.2.1, ?_⟩
        intro hcontra
        rcases hcontra with hfalse | hnr
        · rw [hcond.1] at hfalse
          cases hfalse
        · exact absurd rfl (hnr rr)
      · simp only [if_pos hcond, hget] at hle ⊢
        have ht := truncateResult_shape (effectiveN defaultN maxN nOpt)
          (baseOf raw) h1 h2 h3 (fun l hl => by cases hl)
        exact ⟨ht.1, ht.2.1, ht.2.2.1, hle, ht.2.2.2.1,
          fun _ => ht.2.2.2.2 rfl⟩
    · simp only [if_neg hcond] at hle ⊢
      have ht := truncateResult_shape (effectiveN defaultN maxN nOpt)
        (baseOf raw) h1 h2 h3 (fun l hl => by cases hl)
      exact ⟨ht.1, ht.2.1, ht.2.2.1, hle, ht.2.2.2.1,
        fun _ => ht.2.2.2.2 rfl⟩

/-- C9 witness: a reranked call (construction succeeds on first use)
whose result has the five parallel arrays, instantiated concretely. -/
def rerankedOne : SearchResult :=
  { ids := ["a"], documents := ["da"], metadatas := [Json.null],
    distances := [some 1], rerank_scores := some [7] }

theorem search_result_parallel_arrays_instance :
    ((fun (_ : Nat) => some rawTwo)
        (fetchCount 50 (effectiveN 12 20 (some 1)) ((some true).getD true)) =
      some rawTwo ∧
     (baseOf rawTwo).documents.length = (baseOf rawTwo).ids.length) ∧
    rerankedOne.documents.length = rerankedOne.ids.length :=
  ⟨⟨rfl, by decide⟩,
   (search_result_parallel_arrays (fun _ => some rawTwo)
     (some ⟨fun ps => ps.map (fun _ => 7)⟩) true 12 20 50 RerankerCell.uninit
     "q" (some 1) (some true) rawTwo rerankedOne
     (RerankerCell.ready ⟨fun ps => ps.map (fun _ => 7)⟩)
     rfl (by decide) (by decide) (by decide) rfl).1⟩

/-- C10: a search call with a requested count of 0 (or `None`) does not
return an empty result: Python's `n_results or DEFAULT_SEARCH_RESULTS`
coerces both to the configured default, so the call behaves exactly
like a call with no count and returns up to the default number (12
under the default configuration) of results. -/
theorem search_zero_n_coerced_to_default
    (queryFn : Nat → Option QueryRaw) (construct : Option Reranker)
    (enable : Bool) (defaultN maxN poolK : Nat) (cell : RerankerCell)
    (q : String) (useRROpt : Option Bool) :
    search queryFn construct enable defaultN maxN poolK cell q (some 0) useRROpt =
      search queryFn construct enable defaultN maxN poolK cell q none useRROpt ∧
    effectiveN defaultN maxN (some 0) = effectiveN defaultN maxN none ∧
    effectiveN DEFAULT_SEARCH_RESULTS MAX_SEARCH_RESULTS (some 0) =
      DEFAULT_SEARCH_RESULTS ∧
    (∀ r c',
      search queryFn construct enable 12 20 poolK cell q (some 0) useRROpt =
        (Except.ok r, c') →
      r.ids.length ≤ 12) := by
  refine ⟨rfl, rfl, by decide, ?_⟩
  intro r c' h
  have := search_ok_ids_length_le queryFn construct enable 12 20 poolK cell q
    (some 0) useRROpt r c' h
  simpa using this

/-- C10 witness: with the default configuration, requesting 0 results
returns the same non-empty two-candidate result as requesting none. -/
theorem search_zero_n_coerced_to_default_instance :
    search (fun _ => some rawTwo) none true 12 20 50 RerankerCell.failed
        "q" (some 0) (some false) =
      search (fun _ => some rawTwo) none true 12 20 50 RerankerCell.failed
        "q" none (some false) ∧
    (search (fun _ => some rawTwo) none true 12 20 50 RerankerCell.failed
        "q" (some 0) (some false)).1 =
      Except.ok (truncateResult 12 (baseOf rawTwo)) ∧
    (truncateResult 12 (baseOf rawTwo)).ids.length = 2 ∧
    (truncateResult 12 (baseOf rawTwo)).ids.length ≤ 12 :=
  ⟨(search_zero_n_coerced_to_default (fun _ => some rawTwo) none true 12 20 50
      RerankerCell.failed "q" (some false)).1,
   rfl, by decide,
   (search_zero_n_coerced_to_default (fun _ => some rawTwo) none true 12 20 50
      RerankerCell.failed "q" (some false)).2.2.2
     (truncateResult 12 (baseOf rawTwo)) RerankerCell.failed rfl⟩
